import Mathlib

/-!
Verification development for the NUNG schedule scraper (src/scraper.py).

The Python source is shallowly embedded: HTML blocks are modelled as flat
lists of nodes (text runs, img tags, anchors with an optional href, br tags),
strings are Lean strings manipulated through their character lists, and every
regular expression of the source is translated into an executable function
whose search/backtracking behaviour follows the CPython engine on the
pattern in question.

Unicode-dependent primitives (the regex classes \w, \s, \d, str.strip,
str.lower, str.isdigit) are modelled on the character repertoire the scraper
actually meets: ASCII plus the Cyrillic block U+0400..U+04FF.  Python's
versions additionally accept exotic Unicode categories; every concrete input
used below stays inside the modelled repertoire, where the two agree.
-/

namespace NUNG

/-- Whitespace class: models Python's regex class \s and the default strip
set of str.strip, restricted to ASCII whitespace. -/
def isPyWs (c : Char) : Bool :=
  c = ' ' || c = '\t' || c = '\n' || c = '\r' || c = '\x0b' || c = '\x0c'

/-- Models str.strip() on a character list: drop whitespace at both ends. -/
def stripChars (cs : List Char) : List Char :=
  ((cs.dropWhile isPyWs).reverse.dropWhile isPyWs).reverse

/-- Models str.strip() on strings. -/
def pyStrip (s : String) : String :=
  ⟨stripChars s.data⟩

/-- Models str.lower / re.IGNORECASE folding for ASCII letters and the
Cyrillic letters used by the scraper (А..Я, the Ukrainian letters Ѐ..Џ row,
and Ґ). -/
def ruToLower (c : Char) : Char :=
  if 'A' ≤ c ∧ c ≤ 'Z' then Char.ofNat (c.toNat + 32)
  else if 0x410 ≤ c.toNat ∧ c.toNat ≤ 0x42F then Char.ofNat (c.toNat + 32)
  else if 0x400 ≤ c.toNat ∧ c.toNat ≤ 0x40F then Char.ofNat (c.toNat + 80)
  else if c.toNat = 0x490 then Char.ofNat 0x491
  else c

/-- Lexicographic comparison of character lists by code point; this is the
order Python's sorted() uses on strings. -/
def lexLe : List Char → List Char → Bool
  | [], _ => true
  | _ :: _, [] => false
  | a :: as, b :: bs =>
    if a.toNat < b.toNat then true
    else if b.toNat < a.toNat then false
    else lexLe as bs

/-- Lexicographic (code point) comparison on strings. -/
def strLeb (a b : String) : Bool :=
  lexLe a.data b.data

/-- Insert into a sorted list (insertion sort step). -/
def insertLe (x : String) : List String → List String
  | [] => [x]
  | y :: ys => if strLeb x y then x :: y :: ys else y :: insertLe x ys

/-- Insertion sort by code-point order; agrees with Python's sorted() on a
duplicate-free list. -/
def sortLe : List String → List String
  | [] => []
  | x :: xs => insertLe x (sortLe xs)

/-- Remove duplicates (keeping one representative per element); models the
conversion of a Python list to a set. -/
def uniq : List String → List String
  | [] => []
  | x :: xs => if x ∈ xs then uniq xs else x :: uniq xs

/-- Models Python's sorted(list(set(l))). -/
def sortDedup (l : List String) : List String :=
  sortLe (uniq l)

/-- Split a character list at newline characters; models str.split of a
string built with newline separators. -/
def splitNl : List Char → List (List Char)
  | [] => [[]]
  | '\n' :: rest => [] :: splitNl rest
  | c :: rest =>
    match splitNl rest with
    | l :: ls => (c :: l) :: ls
    | [] => [[c]]

/-- Join text runs with a newline separator; models get_text(sep) where sep
is a newline. -/
def joinRuns : List String → List Char
  | [] => []
  | [s] => s.data
  | s :: rest => s.data ++ '\n' :: joinRuns rest

/-- Substring occurrence test on character lists (models the Python
operator testing containment of one str in another). -/
def containsSub (cs pat : List Char) : Bool :=
  match cs with
  | [] => pat.isEmpty
  | _ :: t => (cs.take pat.length == pat) || containsSub t pat

/-- Fuelled non-overlapping left-to-right replacement; models str.replace.
The fuel is the length of the subject list. -/
def replaceAllL (fuel : Nat) (cs pat rep : List Char) : List Char :=
  match fuel, cs with
  | 0, cs => cs
  | _, [] => []
  | fuel + 1, c :: t =>
    if !pat.isEmpty && (cs.take pat.length == pat) then
      rep ++ replaceAllL fuel (cs.drop pat.length) pat rep
    else
      c :: replaceAllL fuel t pat rep

/-- Models str.replace on strings. -/
def replaceAllStr (s pat rep : String) : String :=
  ⟨replaceAllL s.data.length s.data pat.data rep.data⟩

/-! Regex embeddings for the patterns of parse_lesson_details. -/

/-- Models the tail of the subject regex.  Given the characters after
the leading star and open parenthesis, the lazy group (.+?) stops at the
first close parenthesis preceded by at least one character and followed by
at least one character; otherwise the close parenthesis is absorbed into
the lazy group and scanning continues (backtracking). -/
def subjScan (acc : List Char) : List Char → Option (String × String)
  | [] => none
  | ')' :: rest =>
    if acc ≠ [] ∧ rest ≠ [] then
      some (⟨acc.reverse⟩, ⟨rest⟩)
    else subjScan (')' :: acc) rest
  | c :: rest => subjScan (c :: acc) rest

/-- Models the trailing part of the subject regex on the raw remainder
after the close parenthesis: greedy whitespace, then a non-empty group.
When the remainder is all whitespace the greedy star gives one character
back, so the group is the last character. -/
def group2Of (rest : List Char) : String :=
  let d := rest.dropWhile isPyWs
  if d ≠ [] then ⟨d⟩ else ⟨rest.drop (rest.length - 1)⟩

/-- Models subject_pattern.match(line) for the anchored regex of
scraper.py line 68 (a star, a parenthesized lazy group, optional
whitespace, then the non-empty rest of the line); returns the two raw
capture groups. -/
def subjectMatch (line : String) : Option (String × String) :=
  match line.data with
  | '*' :: '(' :: rest =>
    match subjScan [] rest with
    | some (t, r) => some (t, group2Of r.data)
    | none => none
  | _ => none

/-- Keyword of the teacher regex in lowercase characters. -/
def teacherKw : List Char :=
  ("викладач").data

/-- Case-insensitive scan for the teacher regex of scraper.py line 71:
the keyword, one whitespace character, then a non-empty greedy group
running to the end of the line.  Returns the raw capture group of the
leftmost match. -/
def teacherAux : List Char → Option String
  | [] => none
  | c :: tail =>
    let cs := c :: tail
    if (cs.take 8).map ruToLower == teacherKw then
      match cs.drop 8 with
      | w :: t => if isPyWs w ∧ t ≠ [] then some ⟨t⟩ else teacherAux tail
      | [] => teacherAux tail
    else teacherAux tail

/-- Models teacher_pattern.search(line), returning group(1) raw. -/
def teacherCapture (line : String) : Option String :=
  teacherAux line.data

/-- Tests a scheme-slashes-nonspace suffix after the literal http part
of the link regex. -/
def slashesNonWs (cs : List Char) : Bool :=
  (cs.take 3 == ("://").data) &&
    (match cs.drop 3 with
     | c :: _ => !isPyWs c
     | [] => false)

/-- Match of the link regex of scraper.py line 72 at one position:
http, an optional s, the slashes, then at least one non-space char. -/
def urlAt (cs : List Char) : Bool :=
  (cs.take 4 == ("http").data) &&
    (match cs.drop 4 with
     | 's' :: rest => slashesNonWs rest
     | rest => slashesNonWs rest)

/-- Models link_pattern.search(line) as a Boolean. -/
def urlSearch : List Char → Bool
  | [] => false
  | c :: rest => urlAt (c :: rest) || urlSearch rest

/-- Boolean link test on strings. -/
def urlSearchStr (line : String) : Bool :=
  urlSearch line.data

/-- Word-character class of the group regex: models \w restricted to
ASCII alphanumerics, underscore, and the Cyrillic block. -/
def isWordChar (c : Char) : Bool :=
  c.isAlphanum || c = '_' || (0x400 ≤ c.toNat && c.toNat ≤ 0x4FF)

/-- Character class of the group regex of scraper.py line 70. -/
def isGroupClassChar (c : Char) : Bool :=
  isWordChar c || isPyWs c || c = '-'

/-- Digit class: models \d restricted to ASCII digits. -/
def isRegexDigit (c : Char) : Bool :=
  c.isDigit

/-- Matches the digits-hyphen-digits tail of the group regex at the head
of the list, returning the matched length.  Both digit runs are greedy;
a shorter first run is never viable because the character after a shorter
run is still a digit. -/
def tailMatch (ds : List Char) : Option Nat :=
  let d1 := (ds.takeWhile isRegexDigit).length
  if d1 = 0 then none
  else
    match (ds.drop d1).head? with
    | some '-' =>
      let d2 := ((ds.drop (d1 + 1)).takeWhile isRegexDigit).length
      if d2 = 0 then none else some (d1 + 1 + d2)
    | _ => none

/-- Backtracking of the greedy leading class of the group regex: try the
hyphen position k from the largest value downward (k characters for the
class, then a hyphen, then the digit tail). -/
def tryK (cs : List Char) : Nat → Option Nat
  | 0 => none
  | k + 1 =>
    match (cs.drop (k + 1)).head?, tailMatch (cs.drop (k + 2)) with
    | some '-', some tlen => some ((k + 1) + 1 + tlen)
    | _, _ => tryK cs k

/-- Length of the group-regex match anchored at the head of the list,
following the CPython backtracking order (longest viable class run
first); none when no match starts here. -/
def groupMatchAt (cs : List Char) : Option Nat :=
  tryK cs ((cs.takeWhile isGroupClassChar).length - 1)

/-- Fuelled scan for non-overlapping leftmost group-regex matches;
models group_name_pattern.findall. -/
def findallAux : Nat → List Char → List String
  | 0, _ => []
  | _, [] => []
  | fuel + 1, c :: t =>
    let cs := c :: t
    match groupMatchAt cs with
    | some len => (⟨cs.take len⟩ : String) :: findallAux fuel (cs.drop len)
    | none => findallAux fuel t

/-- Models group_name_pattern.findall(line). -/
def groupFindall (line : String) : List String :=
  findallAux line.data.length line.data

/-- Keyword of the subgroup regex in lowercase characters. -/
def subgrKw : List Char :=
  ("підгр.").data

/-- Case-insensitive scan for the subgroup regex of scraper.py line 73:
the keyword, greedy whitespace, then one digit.  Returns group(0), the
full matched text from the original line. -/
def subgroupAux : List Char → Option String
  | [] => none
  | c :: tail =>
    let cs := c :: tail
    if (cs.take 6).map ruToLower == subgrKw then
      let rest := cs.drop 6
      let wsLen := (rest.takeWhile isPyWs).length
      match (rest.drop wsLen).head? with
      | some d =>
        if isRegexDigit d then some ⟨cs.take (6 + wsLen + 1)⟩
        else subgroupAux tail
      | none => subgroupAux tail
    else subgroupAux tail

/-- Models subgroup_pattern.search(line), returning group(0). -/
def subgroupSearch (line : String) : Option String :=
  subgroupAux line.data

/-- Scan for the parenthesized lazy group of scraper.py line 116: at
each open parenthesis take the shortest non-empty content closed by a
later parenthesis; otherwise move one position to the right. -/
def parenAux : List Char → Option String
  | [] => none
  | '(' :: rest =>
    (match rest with
     | [] => none
     | _ :: t =>
       match t.findIdx? (· = ')') with
       | some i => some ⟨rest.take (i + 1)⟩
       | none => parenAux rest)
  | _ :: tail => parenAux tail

/-- Models re.search of the parenthesized-fragment regex, group(1). -/
def parenSearch (line : String) : Option String :=
  parenAux line.data

/-- Models the test for the remote-marker word on the lowercased line. -/
def remoteIn (line : String) : Bool :=
  containsSub (line.data.map ruToLower) (("дистанційно").data)

/-! The markup model: a lesson cell or block is a flat list of nodes. -/

/-- One markup node of a details cell: a text run, an image tag, an
anchor with an optional href attribute and its link text, or a line
break.  In the serialized markup the substring starting an image tag
occurs exactly at the img nodes, since BeautifulSoup escapes angle
brackets inside text. -/
inductive Node where
  | text (s : String)
  | img
  | a (href : Option String) (txt : String)
  | br
deriving DecidableEq

/-- The strings a node contributes to get_text. -/
def nodeRuns : Node → List String
  | Node.text s => [s]
  | Node.a _ t => [t]
  | Node.img => []
  | Node.br => []

/-- All text runs of a block in document order. -/
def textRuns (ns : List Node) : List String :=
  ns.flatMap nodeRuns

/-- Models get_text of one node followed by the strip-and-test: does the
node contribute any non-whitespace character. -/
def nodeVisible (n : Node) : Bool :=
  (nodeRuns n).any (fun s => s.data.any (fun c => !isPyWs c))

/-- Models soup.get_text(strip=True) used as a Boolean: the block has
some visible text. -/
def hasVisibleText (ns : List Node) : Bool :=
  ns.any nodeVisible

/-- Models the computation of the line list in parse_lesson_details
line 65: get_text with newline separators, split at newlines, strip each
line, drop empty lines. -/
def linesOf (ns : List Node) : List String :=
  ((splitNl (joinRuns (textRuns ns))).map (fun cs => pyStrip ⟨cs⟩)).filter
    (fun l => l ≠ ("" : String))

/-- Does the node pass find_all with the anchor name and a required
href attribute. -/
def anchorHasHref : Node → Bool
  | Node.a (some _) _ => true
  | _ => false

/-- The href attribute of a node, when present; models the subscript
access on a tag. -/
def getHref : Node → Option String
  | Node.a h _ => h
  | _ => none

/-- Models the href list comprehension of parse_lesson_details line 61. -/
def hrefsOf (ns : List Node) : List String :=
  (ns.filter anchorHasHref).filterMap getHref

/-- The same comprehension with the subscript access modelled as a
fallible operation (a missing key would raise); used to show no
exception escapes. -/
def collectHrefs : List Node → Except String (List String)
  | [] => Except.ok []
  | n :: rest =>
    if anchorHasHref n then
      match getHref n with
      | none => Except.error ("KeyError: href")
      | some h => (collectHrefs rest).map (fun hs => h :: hs)
    else collectHrefs rest

/-! The Segmenter of parse_schedule lines 224..240: insert a marker
before every img tag in the serialized cell, split on the marker, keep
the parts with visible text.  On the node-list model this is exactly a
split of the list before each img node. -/

/-- Accumulating split of a node list before each img node. -/
def splitAux (acc : List Node) : List Node → List (List Node)
  | [] => [acc.reverse]
  | Node.img :: rest => acc.reverse :: splitAux [Node.img] rest
  | n :: rest => splitAux (n :: acc) rest

/-- Models the marker-insertion and split of the serialized cell. -/
def splitBeforeImgs (ns : List Node) : List (List Node) :=
  splitAux [] ns

/-- The fragments the Segmenter yields for one details cell: the split
parts that have visible text (an empty or whitespace-only part fails
the raw strip test, a markup-only part fails the get_text test; both
are discarded, and the two tests together reduce to the visible-text
test). -/
def lessonFragments (ns : List Node) : List (List Node) :=
  (splitBeforeImgs ns).filter (fun c => hasVisibleText c)

/-! The Classifier: parse_lesson_details. -/

/-- The record parse_lesson_details builds.  A missing dictionary key is
modelled as none for the string fields and as the empty list for the
list fields (the cleanup loop of the source deletes empty list values,
so emptiness and absence coincide). -/
structure LessonInfo where
  subject : Option String := none
  type : Option String := none
  teachers : List String := []
  groups : List String := []
  links : List String := []
  subgroup : Option String := none
deriving DecidableEq

/-- State of the per-line loop: the record under construction and the
subject_found flag. -/
structure LoopState where
  info : LessonInfo
  subjectFound : Bool
deriving DecidableEq

/-- One iteration of the per-line loop of parse_lesson_details lines
77..100.  A subject match sets type and subject (stripped) and skips the
rest of the checks; otherwise a teacher match appends the stripped
capture and skips the rest; otherwise the group findall extends groups
with the stripped matches and, independently, a subgroup match stores
the stripped full matched text. -/
def processLine (st : LoopState) (line : String) : LoopState :=
  match subjectMatch line with
  | some ts =>
    { info := { st.info with type := some (pyStrip ts.1),
                             subject := some (pyStrip ts.2) },
      subjectFound := true }
  | none =>
    match teacherCapture line with
    | some name =>
      { st with info :=
          { st.info with teachers := st.info.teachers ++ [pyStrip name] } }
    | none =>
      let gs := (groupFindall line).map pyStrip
      let i1 := if gs.isEmpty then st.info
                else { st.info with groups := st.info.groups ++ gs }
      let i2 :=
        match subgroupSearch line with
        | some m => { i1 with subgroup := some (pyStrip m) }
        | none => i1
      { st with info := i2 }

/-- The exclusion test of the fallback loop, lines 107..112: the line
matches the teacher pattern, contains a bare URL, matches the group
pattern, or contains the remote-marker word. -/
def fallbackFiltered (line : String) : Bool :=
  (teacherCapture line).isSome || urlSearchStr line ||
    !(groupFindall line).isEmpty || remoteIn line

/-- The fallback subject search of lines 104..121: the first line not
excluded becomes the subject; if it contains a parenthesized fragment
that fragment becomes the type and every occurrence of it is removed
from the stored subject, which is then stripped. -/
def fallbackScan (info : LessonInfo) : List String → LessonInfo
  | [] => info
  | line :: rest =>
    if fallbackFiltered line then fallbackScan info rest
    else
      match parenSearch line with
      | some t =>
        { info with
            subject := some (pyStrip (replaceAllStr line (("(") ++ t ++ (")")) (""))),
            type := some t }
      | none => { info with subject := some line }

/-- The record before the per-line loop: empty, except that the sorted
deduplicated links are stored when the href list is non-empty (lines
57..63 of the source). -/
def baseInfo (links0 : List String) : LessonInfo :=
  if links0.isEmpty then {}
  else { ({} : LessonInfo) with links := sortDedup links0 }

/-- The group post-processing of lines 123..125: when the groups key is
present (non-empty), deduplicate and sort it. -/
def postGroups (info : LessonInfo) : LessonInfo :=
  if info.groups.isEmpty then info
  else { info with groups := sortDedup info.groups }

/-- The body of parse_lesson_details after the href extraction: store
the sorted deduplicated links when any, run the per-line loop, run the
fallback when no subject was found, deduplicate and sort groups. -/
def buildInfo (ns : List Node) (links0 : List String) : LessonInfo :=
  let lines := linesOf ns
  let st := lines.foldl processLine { info := baseInfo links0, subjectFound := false }
  let info := if st.subjectFound then st.info else fallbackScan st.info lines
  postGroups info

/-- Models parse_lesson_details of scraper.py lines 55..133. -/
def parse_lesson_details (ns : List Node) : LessonInfo :=
  buildInfo ns (hrefsOf ns)

/-- parse_lesson_details with the fallible href subscript made explicit;
the classifier raises no exception, so this always succeeds. -/
def parse_lesson_detailsChecked (ns : List Node) : Except String LessonInfo :=
  (collectHrefs ns).map (buildInfo ns)

/-! The Subject Indexer: parse_unique_subjects, lines 136..171. -/

/-- One table cell. -/
abbrev Cell := List Node

/-- One table row: its td cells. -/
abbrev Row := List Cell

/-- One day container: its tr rows. -/
abbrev DayDiv := List Row

/-- A page: its day containers. -/
abbrev Page := List DayDiv

/-- Subjects contributed by one details cell: segment it and collect the
subject value of each fragment whose record has one. -/
def cellSubjects (cell : Cell) : List String :=
  (lessonFragments cell).filterMap (fun frag => (parse_lesson_details frag).subject)

/-- Subjects contributed by one row: only rows with exactly three cells
whose details cell has visible text are scanned. -/
def rowSubjects (row : Row) : List String :=
  match row with
  | [_, _, details] =>
    if hasVisibleText details then cellSubjects details else []
  | _ => []

/-- All subject values the indexer traversal collects from a page. -/
def collectSubjects (page : Page) : List String :=
  page.flatMap (fun day => day.flatMap rowSubjects)

/-- Models the normalization of scraper.py line 168: strip a trailing
parenthesized type abbreviation (lecture, practical, lab), case
insensitively, together with the whitespace before it, then strip. -/
def removeTypeSuffix (s : String) : String :=
  match s.data.reverse with
  | ')' :: rest =>
    let afterAbbrev : Option (List Char) :=
      if (rest.take 1).map ruToLower == [('л' : Char)] then some (rest.drop 1)
      else if (rest.take 2).map ruToLower == [('р' : Char), ('п' : Char)] then
        some (rest.drop 2)
      else if (rest.take 3).map ruToLower ==
          [('б' : Char), ('а' : Char), ('л' : Char)] then some (rest.drop 3)
      else none
    match afterAbbrev with
    | some r2 =>
      match r2 with
      | '(' :: r3 => ⟨(r3.dropWhile isPyWs).reverse⟩
      | _ => s
    | none => s
  | _ => s

/-- The full normalization applied to each collected subject. -/
def stripTypeAnnotation (s : String) : String :=
  pyStrip (removeTypeSuffix s)

/-- Models parse_unique_subjects: collect, normalize, deduplicate via a
set, sort. -/
def parse_unique_subjects (page : Page) : List String :=
  sortDedup ((collectSubjects page).map stripTypeAnnotation)

/-! The Fetcher: get_schedule_html_by_post and get_schedule_html,
scraper.py lines 11..53. -/

/-- The Python exceptions relevant to the fetch path. -/
inductive PyExn where
  | unicodeEncodeError
  | requestException
deriving DecidableEq

/-- The windows-1251 byte for a code point in the upper half of the code
page (the lower half is ASCII); none for a character the code page
cannot represent.  Entries follow the standard windows-1251 table; byte
0x98 is unassigned. -/
def cp1251High : List (Nat × Nat) :=
  [(0x0402, 0x80), (0x0403, 0x81), (0x201A, 0x82), (0x0453, 0x83),
   (0x201E, 0x84), (0x2026, 0x85), (0x2020, 0x86), (0x2021, 0x87),
   (0x20AC, 0x88), (0x2030, 0x89), (0x0409, 0x8A), (0x2039, 0x8B),
   (0x040A, 0x8C), (0x040C, 0x8D), (0x040B, 0x8E), (0x040F, 0x8F),
   (0x0452, 0x90), (0x2018, 0x91), (0x2019, 0x92), (0x201C, 0x93),
   (0x201D, 0x94), (0x2022, 0x95), (0x2013, 0x96), (0x2014, 0x97),
   (0x2122, 0x99), (0x0459, 0x9A), (0x203A, 0x9B), (0x045A, 0x9C),
   (0x045C, 0x9D), (0x045B, 0x9E), (0x045F, 0x9F), (0x00A0, 0xA0),
   (0x040E, 0xA1), (0x045E, 0xA2), (0x0408, 0xA3), (0x00A4, 0xA4),
   (0x0490, 0xA5), (0x00A6, 0xA6), (0x00A7, 0xA7), (0x0401, 0xA8),
   (0x00A9, 0xA9), (0x0404, 0xAA), (0x00AB, 0xAB), (0x00AC, 0xAC),
   (0x00AD, 0xAD), (0x00AE, 0xAE), (0x0407, 0xAF), (0x00B0, 0xB0),
   (0x00B1, 0xB1), (0x0406, 0xB2), (0x0456, 0xB3), (0x0491, 0xB4),
   (0x00B5, 0xB5), (0x00B6, 0xB6), (0x00B7, 0xB7), (0x0451, 0xB8),
   (0x2116, 0xB9), (0x0454, 0xBA), (0x00BB, 0xBB), (0x0458, 0xBC),
   (0x0405, 0xBD), (0x0455, 0xBE), (0x0457, 0xBF)]

/-- Fetch the byte for a code point from the table. -/
def lookupByte : List (Nat × Nat) → Nat → Option Nat
  | [], _ => none
  | (cp, b) :: rest, n => if cp = n then some b else lookupByte rest n

/-- Encode one character to its windows-1251 byte, when representable:
ASCII maps to itself, А..я map to 0xC0..0xFF, the rest through the
table. -/
def cp1251Byte (c : Char) : Option Nat :=
  let n := c.toNat
  if n < 0x80 then some n
  else if 0x410 ≤ n ∧ n ≤ 0x44F then some (n - 0x410 + 0xC0)
  else lookupByte cp1251High n

/-- Is the byte in the safe set of urllib.parse.quote with the default
safe characters (ASCII alphanumerics, underscore, dot, hyphen, tilde,
slash). -/
def isQuoteSafeByte (b : Nat) : Bool :=
  (0x41 ≤ b && b ≤ 0x5A) || (0x61 ≤ b && b ≤ 0x7A) ||
    (0x30 ≤ b && b ≤ 0x39) || b = 0x5F || b = 0x2E || b = 0x2D ||
    b = 0x7E || b = 0x2F

/-- Uppercase hexadecimal digit. -/
def hexDigit (n : Nat) : Char :=
  if n < 10 then Char.ofNat (0x30 + n) else Char.ofNat (0x41 + (n - 10))

/-- Percent escape of one byte, uppercase. -/
def pctEscape (b : Nat) : List Char :=
  ['%', hexDigit (b / 16), hexDigit (b % 16)]

/-- Models urllib.parse.quote with windows-1251 encoding on one
character: encode to a byte (raising on failure), keep safe bytes as
their character, percent-escape the rest. -/
def quoteChar (c : Char) : Except PyExn (List Char) :=
  match cp1251Byte c with
  | none => Except.error PyExn.unicodeEncodeError
  | some b =>
    if isQuoteSafeByte b then Except.ok [c] else Except.ok (pctEscape b)

/-- Character-list traversal of the quote encoding. -/
def quoteAux : List Char → Except PyExn (List Char)
  | [] => Except.ok []
  | c :: rest =>
    match quoteChar c with
    | Except.error e => Except.error e
    | Except.ok out => (quoteAux rest).map (fun r => out ++ r)

/-- Models urllib.parse.quote(group_name, encoding of windows-1251) of
scraper.py line 18; raises UnicodeEncodeError for a character outside
the code page. -/
def quoteCp1251 (s : String) : Except PyExn String :=
  (quoteAux s.data).map (fun cs => ⟨cs⟩)

/-- The POST payload of scraper.py line 20 for an encoded group name. -/
def payloadFor (enc : String) : String :=
  ("faculty=0&teacher=&course=0&group=") ++ enc ++ ("&sdate=&edate=&n=700")

/-- The body of the try block of get_schedule_html_by_post: quote the
group name, then perform the network POST.  The network is an oracle
from payload to an optional body; none models a RequestException from
the request or raise_for_status. -/
def postTryBody (net : String → Option String) (g : String) :
    Except PyExn String :=
  match quoteCp1251 g with
  | Except.error e => Except.error e
  | Except.ok enc =>
    match net (payloadFor enc) with
    | some t => Except.ok t
    | none => Except.error PyExn.requestException

/-- Models get_schedule_html_by_post of scraper.py lines 11..32: the
except clause catches only RequestException (returning the None signal);
any other exception raised inside the try block escapes. -/
def get_schedule_html_by_post (net : String → Option String) (g : String) :
    Except PyExn (Option String) :=
  match postTryBody net g with
  | Except.ok t => Except.ok (some t)
  | Except.error PyExn.requestException => Except.ok none
  | Except.error e => Except.error e

/-- Models str.lstrip with a hyphen argument: remove every leading
hyphen. -/
def pyLstripMinus (s : String) : String :=
  ⟨s.data.dropWhile (fun c => c = '-')⟩

/-- Models str.isdigit restricted to ASCII digits: non-empty and all
digits.  The Python original additionally accepts some non-ASCII digit
characters. -/
def pyIsDigit (s : String) : Bool :=
  !s.data.isEmpty && s.data.all Char.isDigit

/-- Which network call get_schedule_html makes. -/
inductive Route where
  | get
  | post
deriving DecidableEq

/-- The routing decision of scraper.py line 40 (the isinstance test is
always true in this typed model). -/
def fetchRoute (g : String) : Route :=
  if pyIsDigit (pyLstripMinus g) then Route.get else Route.post

/-- The GET query URL of scraper.py line 43. -/
def getUrl (g : String) : String :=
  ("https://dekanat.nung.edu.ua/cgi-bin/timetable.cgi?n=700&group=") ++ g

/-- Models get_schedule_html of scraper.py lines 34..53: GET for a
digit-shaped identifier after stripping leading hyphens, POST
otherwise.  The GET branch catches RequestException and returns the
None signal. -/
def get_schedule_html (netGet netPost : String → Option String)
    (g : String) : Except PyExn (Option String) :=
  if pyIsDigit (pyLstripMinus g) then
    match netGet (getUrl g) with
    | some t => Except.ok (some t)
    | none => Except.ok none
  else get_schedule_html_by_post netPost g

/-- Modelled from the claim wording, for comparison with the code: a
signed-integer-shaped string is one optional leading minus sign followed
by one or more digits. -/
def signedIntShaped (s : String) : Bool :=
  let t := if s.data.head? = some '-' then s.data.tail else s.data
  !t.isEmpty && t.all Char.isDigit

/-! Derived per-line extraction functions used to characterize the
per-line loop, and concrete cells used as test inputs. -/

/-- The last element of the list when non-empty, a default otherwise;
describes the last-assignment-wins fields of the loop. -/
def lastOr (xs : List String) (d : Option String) : Option String :=
  match xs with
  | [] => d
  | x :: rest => lastOr rest (some x)

/-- Does the line match the subject regex. -/
def lineHasSubject (l : String) : Bool :=
  (subjectMatch l).isSome

/-- The subject value a line contributes in the loop. -/
def subjectValExtract (l : String) : Option String :=
  (subjectMatch l).map (fun p => pyStrip p.2)

/-- The type value a line contributes in the loop. -/
def typeValExtract (l : String) : Option String :=
  (subjectMatch l).map (fun p => pyStrip p.1)

/-- The teacher entry a line contributes in the loop: only lines not
matching the subject regex reach the teacher check. -/
def teacherExtract (l : String) : Option String :=
  if (subjectMatch l).isSome then none
  else (teacherCapture l).map pyStrip

/-- The group entries a line contributes in the loop: only lines
matching neither the subject regex nor the teacher regex reach the
group check. -/
def groupExtract (l : String) : List String :=
  if (subjectMatch l).isSome || (teacherCapture l).isSome then []
  else (groupFindall l).map pyStrip

/-- The subgroup value a line contributes in the loop: only lines
matching neither the subject regex nor the teacher regex reach the
subgroup check. -/
def subgroupExtract (l : String) : Option String :=
  if (subjectMatch l).isSome || (teacherCapture l).isSome then none
  else (subgroupSearch l).map pyStrip

/-- A block whose two lines both match the subject regex. -/
def cellTwoSubjects : List Node :=
  [Node.text ("*(Л) Математика\n*(Пр) Фізика")]

/-- A block with a single subject line. -/
def cellOneSubject : List Node :=
  [Node.text ("*(Л) Математика")]

/-- A one-block cell without image markers. -/
def cellNoImg : List Node :=
  [Node.text ("Математика")]

/-- A details cell with two image markers, each starting a lesson block
with visible text. -/
def cellTwoImgs : List Node :=
  [Node.img, Node.text ("*(Л) Математика"), Node.img,
   Node.text ("*(Пр) Фізика")]

/-- A block whose only lines are a group code and a bare link. -/
def cellGroupAndLink : List Node :=
  [Node.text ("ІПм-24-1\nhttps://example.com/x")]

/-- A block with two identical teacher lines. -/
def cellDupTeachers : List Node :=
  [Node.text ("викладач Іванов І.І.\nвикладач Іванов І.І.")]

/-- A block with three anchors (one repeated target) and a text line. -/
def cellAnchors : List Node :=
  [Node.a (some ("https://b.example")) ("Текст один"), Node.text ("прим"),
   Node.a (some ("https://a.example")) ("Текст два"),
   Node.a (some ("https://b.example")) ("Текст три")]

/-- The same anchors with different link texts. -/
def cellAnchorsOtherText : List Node :=
  [Node.a (some ("https://b.example")) ("інший текст"), Node.text ("прим"),
   Node.a (some ("https://a.example")) ("ще інший"),
   Node.a (some ("https://b.example")) ("і ще")]

/-- A block whose last subgroup-marked line also matches the teacher
regex. -/
def cellSubgroupTeacher : List Node :=
  [Node.text ("підгр. 1\nвикладач Іванов підгр. 2")]

/-- A block with two plain subgroup-marked lines. -/
def cellSubgroupTwice : List Node :=
  [Node.text ("підгр. 1\nпідгр. 2")]

/-- A page with one day, one row, and a details cell holding two lesson
blocks whose subject values carry type annotations. -/
def examplePage : Page :=
  [[[[Node.text ("1")], [Node.text ("08:30")],
     [Node.img, Node.text ("*(Л) Економіка (Л)"), Node.img,
      Node.text ("*(Пр) Економіка (Пр)")]]]]

/-! Properties of the ordering and of sortDedup. -/

theorem lexLe_total (a : List Char) : ∀ b, (lexLe a b || lexLe b a) = true := by
  induction a with
  | nil => intro b; cases b <;> simp [lexLe]
  | cons x xs ih =>
    intro b
    cases b with
    | nil => simp [lexLe]
    | cons y ys =>
      simp only [lexLe]
      by_cases h1 : x.toNat < y.toNat
      · simp [h1]
      · by_cases h2 : y.toNat < x.toNat
        · simp [h1, h2]
        · simp [h1, h2, ih ys]

theorem lexLe_trans :
    ∀ (a b c : List Char), lexLe a b = true → lexLe b c = true →
      lexLe a c = true := by
  intro a
  induction a with
  | nil => intro b c _ _; simp [lexLe]
  | cons x xs ih =>
    intro b c hab hbc
    cases b with
    | nil => simp [lexLe] at hab
    | cons y ys =>
      cases c with
      | nil => simp [lexLe] at hbc
      | cons z zs =>
        simp only [lexLe] at hab hbc ⊢
        by_cases h1 : x.toNat < y.toNat
        · by_cases h3 : y.toNat < z.toNat
          · have hxz : x.toNat < z.toNat := h1.trans h3
            simp [hxz]
          · by_cases h4 : z.toNat < y.toNat
            · simp [h3, h4] at hbc
            · have hxz : x.toNat < z.toNat := by omega
              simp [hxz]
        · by_cases h2 : y.toNat < x.toNat
          · simp [h1, h2] at hab
          · by_cases h3 : y.toNat < z.toNat
            · have hxz : x.toNat < z.toNat := by omega
              simp [hxz]
            · by_cases h4 : z.toNat < y.toNat
              · simp [h3, h4] at hbc
              · have hab' : lexLe xs ys = true := by simpa [h1, h2] using hab
                have hbc' : lexLe ys zs = true := by simpa [h3, h4] using hbc
                have hxz1 : ¬ x.toNat < z.toNat := by omega
                have hxz2 : ¬ z.toNat < x.toNat := by omega
                simp [hxz1, hxz2]
                exact ih ys zs hab' hbc'

theorem strLeb_total (a b : String) : (strLeb a b || strLeb b a) = true :=
  lexLe_total a.data b.data

theorem strLeb_trans {a b c : String} (hab : strLeb a b = true)
    (hbc : strLeb b c = true) : strLeb a c = true :=
  lexLe_trans a.data b.data c.data hab hbc

theorem mem_insertLe {a x : String} :
    ∀ {l : List String}, a ∈ insertLe x l ↔ a = x ∨ a ∈ l := by
  intro l
  induction l with
  | nil => simp [insertLe]
  | cons y ys ih =>
    simp only [insertLe]
    by_cases h : strLeb x y = true
    · rw [if_pos h]
      simp
    · rw [if_neg h]
      simp [ih]
      tauto

theorem insertLe_sorted {x : String} :
    ∀ {l : List String}, l.Pairwise (fun a b => strLeb a b = true) →
      (insertLe x l).Pairwise (fun a b => strLeb a b = true) := by
  intro l
  induction l with
  | nil => intro _; simp [insertLe]
  | cons y ys ih =>
    intro h
    rw [List.pairwise_cons] at h
    simp only [insertLe]
    by_cases hxy : strLeb x y = true
    · rw [if_pos hxy, List.pairwise_cons]
      refine ⟨?_, List.pairwise_cons.mpr h⟩
      intro b hb
      rcases List.mem_cons.mp hb with rfl | hb
      · exact hxy
      · exact strLeb_trans hxy (h.1 b hb)
    · rw [if_neg hxy, List.pairwise_cons]
      have hyx : strLeb y x = true := by
        have := strLeb_total x y
        rw [Bool.or_eq_true] at this
        tauto
      refine ⟨?_, ih h.2⟩
      intro b hb
      rcases mem_insertLe.mp hb with rfl | hb
      · exact hyx
      · exact h.1 b hb

theorem sortLe_sorted :
    ∀ (l : List String), (sortLe l).Pairwise (fun a b => strLeb a b = true) := by
  intro l
  induction l with
  | nil => simp [sortLe]
  | cons x xs ih =>
    simp only [sortLe]
    exact insertLe_sorted ih

theorem insertLe_perm (x : String) :
    ∀ (l : List String), (insertLe x l).Perm (x :: l) := by
  intro l
  induction l with
  | nil => simp [insertLe]
  | cons y ys ih =>
    simp only [insertLe]
    by_cases h : strLeb x y = true
    · rw [if_pos h]
    · rw [if_neg h]
      exact (ih.cons y).trans (List.Perm.swap x y ys)

theorem sortLe_perm : ∀ (l : List String), (sortLe l).Perm l := by
  intro l
  induction l with
  | nil => simp [sortLe]
  | cons x xs ih =>
    simp only [sortLe]
    exact (insertLe_perm x (sortLe xs)).trans (ih.cons x)

theorem mem_sortLe {a : String} {l : List String} :
    a ∈ sortLe l ↔ a ∈ l :=
  (sortLe_perm l).mem_iff

theorem mem_uniq {a : String} : ∀ {l : List String}, a ∈ uniq l ↔ a ∈ l := by
  intro l
  induction l with
  | nil => simp [uniq]
  | cons x xs ih =>
    simp only [uniq]
    by_cases h : x ∈ xs
    · rw [if_pos h, ih]
      simp only [List.mem_cons]
      constructor
      · exact Or.inr
      · rintro (rfl | hx)
        · exact h
        · exact hx
    · rw [if_neg h]
      simp [ih]

theorem uniq_nodup : ∀ (l : List String), (uniq l).Nodup := by
  intro l
  induction l with
  | nil => simp [uniq]
  | cons x xs ih =>
    simp only [uniq]
    by_cases h : x ∈ xs
    · rw [if_pos h]
      exact ih
    · rw [if_neg h]
      exact List.nodup_cons.mpr ⟨fun hx => h (mem_uniq.mp hx), ih⟩

theorem sortDedup_pairwise (l : List String) :
    (sortDedup l).Pairwise (fun a b => strLeb a b = true) :=
  sortLe_sorted (uniq l)

theorem sortDedup_nodup (l : List String) : (sortDedup l).Nodup :=
  ((sortLe_perm (uniq l)).symm).nodup (uniq_nodup l)

theorem mem_sortDedup {a : String} {l : List String} :
    a ∈ sortDedup l ↔ a ∈ l := by
  unfold sortDedup
  rw [mem_sortLe, mem_uniq]

/-! Properties of lastOr and of the segment split. -/

theorem lastOr_eq_getLast? :
    ∀ (xs : List String) (d : Option String),
      lastOr xs d = match xs.getLast? with
                    | some v => some v
                    | none => d := by
  intro xs
  induction xs with
  | nil => intro d; rfl
  | cons x rest ih =>
    intro d
    cases rest with
    | nil => simp [lastOr, ih]
    | cons y ys =>
      rw [List.getLast?_cons_cons]
      exact ih (some x)

theorem splitAux_nil (acc : List Node) : splitAux acc [] = [acc.reverse] :=
  rfl

theorem splitAux_append_noImg :
    ∀ (pre : List Node), (∀ n ∈ pre, n ≠ Node.img) →
      ∀ (acc rest : List Node),
        splitAux acc (pre ++ rest) = splitAux (pre.reverse ++ acc) rest := by
  intro pre
  induction pre with
  | nil => intro _ acc rest; simp
  | cons p ps ih =>
    intro h acc rest
    have hp : p ≠ Node.img := h p (List.mem_cons_self p ps)
    have hps : ∀ n ∈ ps, n ≠ Node.img := fun n hn => h n (List.mem_cons_of_mem p hn)
    have step : splitAux acc ((p :: ps) ++ rest) = splitAux (p :: acc) (ps ++ rest) := by
      cases p with
      | img => exact absurd rfl hp
      | text s => rfl
      | a hr t => rfl
      | br => rfl
    rw [step, ih hps (p :: acc) rest]
    simp

theorem splitBeforeImgs_noImg (ns : List Node)
    (h : ∀ n ∈ ns, n ≠ Node.img) : splitBeforeImgs ns = [ns] := by
  unfold splitBeforeImgs
  have h1 := splitAux_append_noImg ns h [] []
  rw [List.append_nil] at h1
  rw [h1, List.append_nil, splitAux_nil, List.reverse_reverse]

theorem hasVisibleText_cons_img (l : List Node) :
    hasVisibleText (Node.img :: l) = hasVisibleText l := by
  simp [hasVisibleText, nodeVisible, nodeRuns]

theorem splitBeforeImgs_two (pre b1 b2 : List Node)
    (hpre : ∀ n ∈ pre, n ≠ Node.img)
    (hb1 : ∀ n ∈ b1, n ≠ Node.img) (hb2 : ∀ n ∈ b2, n ≠ Node.img) :
    splitBeforeImgs (pre ++ (Node.img :: (b1 ++ (Node.img :: b2)))) =
      [pre, Node.img :: b1, Node.img :: b2] := by
  unfold splitBeforeImgs
  rw [splitAux_append_noImg pre hpre [] (Node.img :: (b1 ++ Node.img :: b2))]
  have e1 : splitAux (pre.reverse ++ []) (Node.img :: (b1 ++ Node.img :: b2)) =
      (pre.reverse ++ []).reverse :: splitAux [Node.img] (b1 ++ Node.img :: b2) :=
    rfl
  rw [e1, splitAux_append_noImg b1 hb1 [Node.img] (Node.img :: b2)]
  have e2 : splitAux (b1.reverse ++ [Node.img]) (Node.img :: b2) =
      (b1.reverse ++ [Node.img]).reverse :: splitAux [Node.img] b2 := rfl
  rw [e2]
  have e3 : splitAux [Node.img] b2 = [(b2.reverse ++ [Node.img]).reverse] := by
    have h4 := splitAux_append_noImg b2 hb2 [Node.img] []
    rw [List.append_nil] at h4
    rw [h4, splitAux_nil]
  rw [e3]
  simp

/-! Characterization of the per-line loop, the fallback scan, and the
field values of parse_lesson_details. -/

theorem processLine_subj (st : LoopState) (line : String) (t s : String)
    (h : subjectMatch line = some (t, s)) :
    processLine st line =
      { info := { st.info with type := some (pyStrip t),
                               subject := some (pyStrip s) },
        subjectFound := true } := by
  simp [processLine, h]

theorem processLine_teacher (st : LoopState) (line name : String)
    (hsm : subjectMatch line = none) (htc : teacherCapture line = some name) :
    processLine st line =
      { st with info :=
          { st.info with teachers := st.info.teachers ++ [pyStrip name] } } := by
  simp [processLine, hsm, htc]

theorem processLine_other_none (st : LoopState) (line : String)
    (hsm : subjectMatch line = none) (htc : teacherCapture line = none)
    (hss : subgroupSearch line = none) :
    processLine st line =
      { st with info :=
          { st.info with
              groups := st.info.groups ++ (groupFindall line).map pyStrip } } := by
  by_cases hg : ((groupFindall line).map pyStrip).isEmpty
  · have hnil : (groupFindall line).map pyStrip = [] := List.isEmpty_iff.mp hg
    simp [processLine, hsm, htc, hss, hg, hnil]
  · simp [processLine, hsm, htc, hss, hg]

theorem processLine_other_some (st : LoopState) (line m : String)
    (hsm : subjectMatch line = none) (htc : teacherCapture line = none)
    (hss : subgroupSearch line = some m) :
    processLine st line =
      { st with info :=
          { st.info with
              groups := st.info.groups ++ (groupFindall line).map pyStrip,
              subgroup := some (pyStrip m) } } := by
  by_cases hg : ((groupFindall line).map pyStrip).isEmpty
  · have hnil : (groupFindall line).map pyStrip = [] := List.isEmpty_iff.mp hg
    simp [processLine, hsm, htc, hss, hg, hnil]
  · simp [processLine, hsm, htc, hss, hg]

theorem foldl_processLine_spec :
    ∀ (lines : List String) (st : LoopState),
      (lines.foldl processLine st).info.links = st.info.links ∧
      (lines.foldl processLine st).info.teachers =
        st.info.teachers ++ lines.filterMap teacherExtract ∧
      (lines.foldl processLine st).info.groups =
        st.info.groups ++ lines.flatMap groupExtract ∧
      (lines.foldl processLine st).info.subgroup =
        lastOr (lines.filterMap subgroupExtract) st.info.subgroup ∧
      (lines.foldl processLine st).info.subject =
        lastOr (lines.filterMap subjectValExtract) st.info.subject ∧
      (lines.foldl processLine st).info.type =
        lastOr (lines.filterMap typeValExtract) st.info.type ∧
      (lines.foldl processLine st).subjectFound =
        (st.subjectFound || lines.any lineHasSubject) := by
  intro lines
  induction lines with
  | nil => intro st; simp [lastOr]
  | cons l rest ih =>
    intro st
    obtain ⟨ihLinks, ihTeachers, ihGroups, ihSubgr, ihSubj, ihType, ihFound⟩ :=
      ih (processLine st l)
    simp only [List.foldl_cons, List.filterMap_cons, List.flatMap_cons,
      List.any_cons]
    rcases hsm : subjectMatch l with _ | ⟨t, s⟩
    · have hsve : subjectValExtract l = none := by
        simp [subjectValExtract, hsm]
      have htve : typeValExtract l = none := by
        simp [typeValExtract, hsm]
      have hlhs : lineHasSubject l = false := by
        simp [lineHasSubject, hsm]
      rcases htc : teacherCapture l with _ | name
      · have hte : teacherExtract l = none := by
          simp [teacherExtract, hsm, htc]
        have hge : groupExtract l = (groupFindall l).map pyStrip := by
          simp [groupExtract, hsm, htc]
        rcases hss : subgroupSearch l with _ | m
        · have hsge : subgroupExtract l = none := by
            simp [subgroupExtract, hsm, htc, hss]
          rw [processLine_other_none st l hsm htc hss]
            at ihLinks ihTeachers ihGroups ihSubgr ihSubj ihType ihFound ⊢
          rw [hte, hge, hsge, hsve, htve, hlhs]
          refine ⟨?_, ?_, ?_, ?_, ?_, ?_, ?_⟩
          · simpa using ihLinks
          · simpa using ihTeachers
          · simpa [List.append_assoc] using ihGroups
          · simpa using ihSubgr
          · simpa using ihSubj
          · simpa using ihType
          · simpa using ihFound
        · have hsge : subgroupExtract l = some (pyStrip m) := by
            simp [subgroupExtract, hsm, htc, hss]
          rw [processLine_other_some st l m hsm htc hss]
            at ihLinks ihTeachers ihGroups ihSubgr ihSubj ihType ihFound ⊢
          rw [hte, hge, hsge, hsve, htve, hlhs]
          refine ⟨?_, ?_, ?_, ?_, ?_, ?_, ?_⟩
          · simpa using ihLinks
          · simpa using ihTeachers
          · simpa [List.append_assoc] using ihGroups
          · simpa [lastOr] using ihSubgr
          · simpa using ihSubj
          · simpa using ihType
          · simpa using ihFound
      · have hte : teacherExtract l = some (pyStrip name) := by
          simp [teacherExtract, hsm, htc]
        have hge : groupExtract l = [] := by
          simp [groupExtract, hsm, htc]
        have hsge : subgroupExtract l = none := by
          simp [subgroupExtract, hsm, htc]
        rw [processLine_teacher st l name hsm htc]
          at ihLinks ihTeachers ihGroups ihSubgr ihSubj ihType ihFound ⊢
        rw [hte, hge, hsge, hsve, htve, hlhs]
        refine ⟨?_, ?_, ?_, ?_, ?_, ?_, ?_⟩
        · simpa using ihLinks
        · simpa [List.append_assoc] using ihTeachers
        · simpa using ihGroups
        · simpa using ihSubgr
        · simpa using ihSubj
        · simpa using ihType
        · simpa using ihFound
    · have hsve : subjectValExtract l = some (pyStrip s) := by
        simp [subjectValExtract, hsm]
      have htve : typeValExtract l = some (pyStrip t) := by
        simp [typeValExtract, hsm]
      have hlhs : lineHasSubject l = true := by
        simp [lineHasSubject, hsm]
      have hte : teacherExtract l = none := by
        simp [teacherExtract, hsm]
      have hge : groupExtract l = [] := by
        simp [groupExtract, hsm]
      have hsge : subgroupExtract l = none := by
        simp [subgroupExtract, hsm]
      rw [processLine_subj st l t s hsm]
        at ihLinks ihTeachers ihGroups ihSubgr ihSubj ihType ihFound ⊢
      rw [hte, hge, hsge, hsve, htve, hlhs]
      refine ⟨?_, ?_, ?_, ?_, ?_, ?_, ?_⟩
      · simpa using ihLinks
      · simpa using ihTeachers
      · simpa using ihGroups
      · simpa using ihSubgr
      · simpa [lastOr] using ihSubj
      · simpa [lastOr] using ihType
      · simpa using ihFound

theorem fallbackScan_fields :
    ∀ (ls : List String) (info : LessonInfo),
      (fallbackScan info ls).teachers = info.teachers ∧
      (fallbackScan info ls).groups = info.groups ∧
      (fallbackScan info ls).links = info.links ∧
      (fallbackScan info ls).subgroup = info.subgroup := by
  intro ls
  induction ls with
  | nil => intro info; exact ⟨rfl, rfl, rfl, rfl⟩
  | cons l rest ih =>
    intro info
    simp only [fallbackScan]
    by_cases h : fallbackFiltered l = true
    · rw [if_pos h]
      exact ih info
    · rw [if_neg h]
      rcases parenSearch l with _ | t
      · exact ⟨rfl, rfl, rfl, rfl⟩
      · exact ⟨rfl, rfl, rfl, rfl⟩

theorem fallbackScan_all_filtered :
    ∀ (ls : List String) (info : LessonInfo),
      (∀ l ∈ ls, fallbackFiltered l = true) → fallbackScan info ls = info := by
  intro ls
  induction ls with
  | nil => intro info _; rfl
  | cons l rest ih =>
    intro info h
    simp only [fallbackScan]
    rw [if_pos (h l (List.mem_cons_self l rest))]
    exact ih info (fun x hx => h x (List.mem_cons_of_mem l hx))

theorem collectHrefs_ok : ∀ (ns : List Node),
    collectHrefs ns = Except.ok (hrefsOf ns) := by
  intro ns
  induction ns with
  | nil => rfl
  | cons n rest ih =>
    cases n with
    | text s =>
      simpa [collectHrefs, hrefsOf, anchorHasHref, List.filter_cons] using ih
    | img =>
      simpa [collectHrefs, hrefsOf, anchorHasHref, List.filter_cons] using ih
    | br =>
      simpa [collectHrefs, hrefsOf, anchorHasHref, List.filter_cons] using ih
    | a h t =>
      cases h with
      | none =>
        simpa [collectHrefs, hrefsOf, anchorHasHref, List.filter_cons] using ih
      | some u =>
        simp [collectHrefs, hrefsOf, anchorHasHref, getHref,
          List.filter_cons, List.filterMap_cons, ih, Except.map]

theorem postGroups_teachers (i : LessonInfo) :
    (postGroups i).teachers = i.teachers := by
  unfold postGroups; split <;> rfl

theorem postGroups_links (i : LessonInfo) :
    (postGroups i).links = i.links := by
  unfold postGroups; split <;> rfl

theorem postGroups_subgroup (i : LessonInfo) :
    (postGroups i).subgroup = i.subgroup := by
  unfold postGroups; split <;> rfl

theorem postGroups_subject (i : LessonInfo) :
    (postGroups i).subject = i.subject := by
  unfold postGroups; split <;> rfl

theorem baseInfo_teachers (links0 : List String) :
    (baseInfo links0).teachers = [] := by
  unfold baseInfo; split <;> rfl

theorem baseInfo_subject (links0 : List String) :
    (baseInfo links0).subject = none := by
  unfold baseInfo; split <;> rfl

theorem baseInfo_subgroup (links0 : List String) :
    (baseInfo links0).subgroup = none := by
  unfold baseInfo; split <;> rfl

theorem baseInfo_links (links0 : List String) :
    (baseInfo links0).links =
      (if links0.isEmpty then [] else sortDedup links0) := by
  unfold baseInfo; split <;> rfl

theorem buildInfo_fields (ns : List Node) (links0 : List String) :
    (buildInfo ns links0).teachers = (linesOf ns).filterMap teacherExtract ∧
    (buildInfo ns links0).links =
      (if links0.isEmpty then [] else sortDedup links0) ∧
    (buildInfo ns links0).subgroup =
      lastOr ((linesOf ns).filterMap subgroupExtract) none := by
  obtain ⟨hL, hT, hG, hS, hSubj, hTy, hF⟩ :=
    foldl_processLine_spec (linesOf ns)
      { info := baseInfo links0, subjectFound := false }
  set st := (linesOf ns).foldl processLine
      { info := baseInfo links0, subjectFound := false } with hst
  have hbuild : buildInfo ns links0 =
      postGroups (if st.subjectFound then st.info
                  else fallbackScan st.info (linesOf ns)) := rfl
  simp only at hL hT hG hS hSubj hTy hF
  obtain ⟨fT, fG, fL, fS⟩ := fallbackScan_fields (linesOf ns) st.info
  rw [hbuild]
  by_cases hf : st.subjectFound = true
  · rw [if_pos hf]
    refine ⟨?_, ?_, ?_⟩
    · rw [postGroups_teachers, hT, baseInfo_teachers]
      simp
    · rw [postGroups_links, hL, baseInfo_links]
    · rw [postGroups_subgroup, hS, baseInfo_subgroup]
  · rw [if_neg hf]
    refine ⟨?_, ?_, ?_⟩
    · rw [postGroups_teachers, fT, hT, baseInfo_teachers]
      simp
    · rw [postGroups_links, fL, hL, baseInfo_links]
    · rw [postGroups_subgroup, fS, hS, baseInfo_subgroup]

theorem parse_lesson_details_teachers (ns : List Node) :
    (parse_lesson_details ns).teachers =
      (linesOf ns).filterMap teacherExtract :=
  (buildInfo_fields ns (hrefsOf ns)).1

theorem parse_lesson_details_links (ns : List Node) :
    (parse_lesson_details ns).links =
      (if (hrefsOf ns).isEmpty then [] else sortDedup (hrefsOf ns)) :=
  (buildInfo_fields ns (hrefsOf ns)).2.1

theorem parse_lesson_details_subgroup (ns : List Node) :
    (parse_lesson_details ns).subgroup =
      lastOr ((linesOf ns).filterMap subgroupExtract) none :=
  (buildInfo_fields ns (hrefsOf ns)).2.2

theorem parse_lesson_details_subject_none (ns : List Node)
    (h1 : ∀ l ∈ linesOf ns, subjectMatch l = none)
    (h2 : ∀ l ∈ linesOf ns, fallbackFiltered l = true) :
    (parse_lesson_details ns).subject = none := by
  obtain ⟨hL, hT, hG, hS, hSubj, hTy, hF⟩ :=
    foldl_processLine_spec (linesOf ns)
      { info := baseInfo (hrefsOf ns), subjectFound := false }
  set st := (linesOf ns).foldl processLine
      { info := baseInfo (hrefsOf ns), subjectFound := false } with hst
  have hbuild : parse_lesson_details ns =
      postGroups (if st.subjectFound then st.info
                  else fallbackScan st.info (linesOf ns)) := rfl
  simp only at hSubj hF
  have hfound : st.subjectFound = false := by
    rw [hF, Bool.false_or]
    exact List.any_eq_false.mpr
      (fun l hl => by simp [lineHasSubject, h1 l hl])
  have hnilSub : (linesOf ns).filterMap subjectValExtract = [] :=
    List.filterMap_eq_nil_iff.mpr
      (fun l hl => by simp [subjectValExtract, h1 l hl])
  have hsubj : st.info.subject = none := by
    rw [hSubj, hnilSub, baseInfo_subject]
    rfl
  rw [hbuild, hfound]
  simp only [Bool.false_eq_true, if_false]
  rw [postGroups_subject, fallbackScan_all_filtered (linesOf ns) st.info h2,
    hsubj]

/-! Helper lemmas for the fetch-routing characterization. -/

theorem takeWhile_dash_replicate (l : List Char) :
    l.takeWhile (fun c => c = '-') =
      List.replicate (l.takeWhile (fun c => c = '-')).length '-' := by
  induction l with
  | nil => rfl
  | cons c t ih =>
    by_cases h : c = '-'
    · subst h
      simp only [List.takeWhile_cons, decide_True, if_true,
        List.length_cons, List.replicate_succ]
      rw [← ih]
    · simp [List.takeWhile_cons, h]

theorem dropWhile_dash_replicate (ds : List Char) (hne : ds ≠ [])
    (hd : ds.all Char.isDigit = true) :
    ∀ (k : Nat), (List.replicate k '-' ++ ds).dropWhile (fun c => c = '-') = ds := by
  intro k
  induction k with
  | zero =>
    simp only [List.replicate, List.nil_append]
    cases ds with
    | nil => exact absurd rfl hne
    | cons d t =>
      have hdd : d.isDigit = true := by
        simp [List.all_cons] at hd
        exact hd.1
      have hnd : ¬ (d = '-') := by
        intro h
        rw [h] at hdd
        exact absurd hdd (by decide)
      simp [List.dropWhile_cons, hnd]
  | succ n ih =>
    simpa [List.replicate_succ, List.dropWhile_cons] using ih

/-! The claim theorems. -/

/-- Claim C1, counterexample.  The claim says that once a line has
matched the subject+type pattern, no later line changes the subject or
type fields.  In the code the subject check runs on every line and
overwrites both fields: a block whose two lines both match the pattern
ends with the second line's subject and type, not the first line's. -/
theorem claim_C1_counterexample :
    (parse_lesson_details cellOneSubject).subject = some ("Математика") ∧
    (parse_lesson_details cellTwoSubjects).subject = some ("Фізика") ∧
    (parse_lesson_details cellTwoSubjects).type = some ("Пр") := by
  decide

/-- Claim C1, amended.  In the per-line pass: a line matching the
teacher pattern skips the group and subgroup checks entirely (the
checks are not independent); on a line matching neither the subject nor
the teacher pattern the group and subgroup checks are applied
independently of each other; and a line matching the subject pattern
sets subject and type regardless of any earlier match (the
subject_found flag only disables the fallback scan, it does not stop
later overwrites). -/
theorem claim_C1_amended (st : LoopState) (line : String) :
    (subjectMatch line = none → (teacherCapture line).isSome = true →
      (processLine st line).info.groups = st.info.groups ∧
      (processLine st line).info.subgroup = st.info.subgroup) ∧
    (subjectMatch line = none → teacherCapture line = none →
      (processLine st line).info.groups =
        st.info.groups ++ (groupFindall line).map pyStrip ∧
      (processLine st line).info.subgroup =
        (match subgroupSearch line with
         | some m => some (pyStrip m)
         | none => st.info.subgroup)) ∧
    (∀ t s, subjectMatch line = some (t, s) →
      (processLine st line).info.subject = some (pyStrip s) ∧
      (processLine st line).info.type = some (pyStrip t)) := by
  refine ⟨?_, ?_, ?_⟩
  · intro hsm htc
    obtain ⟨name, hname⟩ := Option.isSome_iff_exists.mp htc
    rw [processLine_teacher st line name hsm hname]
    exact ⟨rfl, rfl⟩
  · intro hsm htc
    rcases hss : subgroupSearch line with _ | m
    · rw [processLine_other_none st line hsm htc hss]
      exact ⟨rfl, rfl⟩
    · rw [processLine_other_some st line m hsm htc hss]
      exact ⟨rfl, rfl⟩
  · intro t s h
    rw [processLine_subj st line t s h]
    exact ⟨rfl, rfl⟩

/-- Witness for claim C1 amended, at concrete inputs: a teacher line
containing a group code contributes nothing to groups or subgroup; a
plain line contributes its group matches and subgroup marker
independently; a subject line overwrites an already found subject. -/
theorem claim_C1_amended_witness :
    ((processLine { info := {}, subjectFound := false }
        ("викладач Іванов ІПм-24-1")).info.groups = [] ∧
     (processLine { info := {}, subjectFound := false }
        ("викладач Іванов ІПм-24-1")).info.subgroup = none) ∧
    ((processLine { info := {}, subjectFound := false }
        ("ІПм-24-1 підгр. 2")).info.groups = [("ІПм-24-1")] ∧
     (processLine { info := {}, subjectFound := false }
        ("ІПм-24-1 підгр. 2")).info.subgroup = some ("підгр. 2")) ∧
    (processLine
        { info := { subject := some ("Математика"), type := some ("Л") },
          subjectFound := true } ("*(Пр) Фізика")).info.subject =
      some ("Фізика") := by
  refine ⟨?_, ?_, ?_⟩
  · exact (claim_C1_amended { info := {}, subjectFound := false }
      ("викладач Іванов ІПм-24-1")).1 (by decide) (by decide)
  · have h := (claim_C1_amended { info := {}, subjectFound := false }
      ("ІПм-24-1 підгр. 2")).2.1 (by decide) (by decide)
    refine ⟨h.1.trans (by decide), h.2.trans (by decide)⟩
  · have h := (claim_C1_amended
      { info := { subject := some ("Математика"), type := some ("Л") },
        subjectFound := true } ("*(Пр) Фізика")).2.2 ("Пр") ("Фізика")
      (by decide)
    exact h.1.trans (by decide)

/-- Claim C2: the code raises where the spec requires a fetch-failure
signal.  For a group name with a character outside windows-1251 the
encoding step raises UnicodeEncodeError, which the except clause (which
catches only RequestException) does not catch, so the exception escapes
get_schedule_html_by_post instead of the function returning None —
whatever the network would have answered. -/
theorem claim_C2_behavior (net : String → Option String) :
    get_schedule_html_by_post net ("Łk-24-1") =
      Except.error PyExn.unicodeEncodeError := by
  have hq : quoteCp1251 ("Łk-24-1") =
      Except.error PyExn.unicodeEncodeError := rfl
  unfold get_schedule_html_by_post postTryBody
  rw [hq]

/-- Claim C3, counterexample.  The claim says a GET is issued exactly
for signed-integer-shaped identifiers (one optional leading minus).
The code strips every leading hyphen before the digit test, so the
string of two minus signs and a digit routes to GET although it is not
signed-integer-shaped. -/
theorem claim_C3_counterexample :
    fetchRoute ("--5") = Route.get ∧ signedIntShaped ("--5") = false := by
  decide

/-- Claim C3, amended.  fetch issues a GET exactly when the identifier
consists of any number (possibly zero) of leading minus signs followed
by at least one digit, and issues a POST for every other string; the
branch taken determines which network call is made. -/
theorem claim_C3_amended (g : String) (netGet netPost : String → Option String) :
    (fetchRoute g = Route.get ↔
      ∃ k ds, g.data = List.replicate k '-' ++ ds ∧ ds ≠ [] ∧
        ds.all Char.isDigit = true) ∧
    get_schedule_html netGet netPost g =
      (match fetchRoute g with
       | Route.get =>
         (match netGet (getUrl g) with
          | some t => Except.ok (some t)
          | none => Except.ok none)
       | Route.post => get_schedule_html_by_post netPost g) := by
  have hroute : fetchRoute g = Route.get ↔
      pyIsDigit (pyLstripMinus g) = true := by
    unfold fetchRoute
    by_cases h : pyIsDigit (pyLstripMinus g) = true
    · simp [h]
    · simp [h]
  constructor
  · rw [hroute]
    constructor
    · intro hd
      unfold pyIsDigit pyLstripMinus at hd
      rw [Bool.and_eq_true] at hd
      refine ⟨(g.data.takeWhile (fun c => c = '-')).length,
              g.data.dropWhile (fun c => c = '-'), ?_, ?_, ?_⟩
      · conv_lhs => rw [← List.takeWhile_append_dropWhile
          (p := fun c => decide (c = '-')) (l := g.data)]
        rw [← takeWhile_dash_replicate]
      · intro hnil
        rw [hnil] at hd
        simp at hd
      · exact hd.2
    · rintro ⟨k, ds, hg, hne, hall⟩
      have hdrop : pyLstripMinus g = ⟨ds⟩ := by
        unfold pyLstripMinus
        rw [hg, dropWhile_dash_replicate ds hne hall k]
      rw [hdrop]
      unfold pyIsDigit
      rw [Bool.and_eq_true]
      constructor
      · cases ds with
        | nil => exact absurd rfl hne
        | cons d t => rfl
      · exact hall
  · unfold get_schedule_html fetchRoute
    by_cases h : pyIsDigit (pyLstripMinus g) = true
    · rw [if_pos h, if_pos h]
    · rw [if_neg h, if_neg h]

/-- Claim C4: the Segmenter's fragment count follows the image-marker
count.  A cell with no image markers and visible text yields exactly
one fragment, the whole cell.  A cell consisting of two image-marked
lesson blocks (no visible text before the first marker, both blocks
with visible text) yields exactly those two fragments. -/
theorem claim_C4 (cell : List Node) :
    ((∀ n ∈ cell, n ≠ Node.img) → hasVisibleText cell = true →
      lessonFragments cell = [cell]) ∧
    (∀ pre b1 b2,
      cell = pre ++ (Node.img :: (b1 ++ (Node.img :: b2))) →
      (∀ n ∈ pre, n ≠ Node.img) → (∀ n ∈ b1, n ≠ Node.img) →
      (∀ n ∈ b2, n ≠ Node.img) →
      hasVisibleText pre = false →
      hasVisibleText b1 = true → hasVisibleText b2 = true →
      lessonFragments cell = [Node.img :: b1, Node.img :: b2]) := by
  constructor
  · intro h hvis
    unfold lessonFragments
    rw [splitBeforeImgs_noImg cell h]
    simp [List.filter_cons, hvis]
  · intro pre b1 b2 hcell hpre hb1 hb2 hvpre hv1 hv2
    subst hcell
    unfold lessonFragments
    rw [splitBeforeImgs_two pre b1 b2 hpre hb1 hb2]
    simp [List.filter_cons, hasVisibleText_cons_img, hvpre, hv1, hv2]

/-- Witness for claim C4 at concrete cells: a marker-free cell is one
fragment; a cell of two image-marked blocks is exactly two fragments. -/
theorem claim_C4_witness :
    lessonFragments cellNoImg = [cellNoImg] ∧
    lessonFragments cellTwoImgs =
      [[Node.img, Node.text ("*(Л) Математика")],
       [Node.img, Node.text ("*(Пр) Фізика")]] := by
  constructor
  · exact (claim_C4 cellNoImg).1 (by decide) (by decide)
  · exact (claim_C4 cellTwoImgs).2 []
      [Node.text ("*(Л) Математика")] [Node.text ("*(Пр) Фізика")]
      rfl (by decide) (by decide) (by decide) (by decide) (by decide)
      (by decide)

/-- Claim C5: when no line of the block matches the subject pattern and
every line is excluded by the fallback filters (teacher pattern, bare
URL, group pattern, or the remote-marker word), the resulting record
has no subject key at all — modelled as none, which is distinct from an
empty string value. -/
theorem claim_C5 (ns : List Node)
    (h1 : ∀ l ∈ linesOf ns, subjectMatch l = none)
    (h2 : ∀ l ∈ linesOf ns, fallbackFiltered l = true) :
    (parse_lesson_details ns).subject = none :=
  parse_lesson_details_subject_none ns h1 h2

/-- Witness for claim C5: a block whose only lines are a group code and
a link yields a record with no subject. -/
theorem claim_C5_witness :
    (parse_lesson_details cellGroupAndLink).subject = none :=
  claim_C5 cellGroupAndLink (by decide) (by decide)

/-- Claim C6, counterexample.  The claim says teachers is a set-like
unique list.  The code appends the teacher capture of every teacher
line without deduplication: a block with two identical teacher lines
produces the same entry twice. -/
theorem claim_C6_counterexample :
    (parse_lesson_details cellDupTeachers).teachers =
      [("Іванов І.І."), ("Іванов І.І.")] := by
  decide

/-- Claim C6, amended.  The teachers field is the list of stripped
teacher-pattern captures of the lines that do not match the subject
pattern, in order of appearance and with duplicates preserved — it is
not deduplicated (only groups and links are). -/
theorem claim_C6_amended (ns : List Node) :
    (parse_lesson_details ns).teachers =
      (linesOf ns).filterMap teacherExtract :=
  parse_lesson_details_teachers ns

/-- Claim C7: for a block with at least one anchor carrying a target,
the links field is the sorted deduplicated list of the anchors' targets
(sorted in code-point order, without duplicates, containing exactly the
targets), it does not depend on the anchors' link text, and it is
absent (empty) when the block has no anchors with targets. -/
theorem claim_C7 (ns : List Node) :
    (hrefsOf ns ≠ [] →
      (parse_lesson_details ns).links.Pairwise (fun a b => strLeb a b = true) ∧
      (parse_lesson_details ns).links.Nodup ∧
      (∀ u, u ∈ (parse_lesson_details ns).links ↔ u ∈ hrefsOf ns)) ∧
    (hrefsOf ns = [] → (parse_lesson_details ns).links = []) ∧
    (∀ ns2, hrefsOf ns2 = hrefsOf ns →
      (parse_lesson_details ns2).links = (parse_lesson_details ns).links) := by
  refine ⟨?_, ?_, ?_⟩
  · intro hne
    have hie : (hrefsOf ns).isEmpty = false := by
      cases h : hrefsOf ns with
      | nil => exact absurd h hne
      | cons u us => rfl
    rw [parse_lesson_details_links, hie]
    simp only [Bool.false_eq_true, if_false]
    exact ⟨sortDedup_pairwise (hrefsOf ns), sortDedup_nodup (hrefsOf ns),
      fun u => mem_sortDedup⟩
  · intro hnil
    rw [parse_lesson_details_links, hnil]
    rfl
  · intro ns2 heq
    rw [parse_lesson_details_links, parse_lesson_details_links, heq]

/-- Witness for claim C7 at a concrete block with three anchors (one
repeated target): the links are without duplicates, contain a target,
and changing only the anchors' text leaves links unchanged. -/
theorem claim_C7_witness :
    (parse_lesson_details cellAnchors).links.Nodup ∧
    (("https://a.example") ∈ (parse_lesson_details cellAnchors).links) ∧
    (parse_lesson_details cellAnchorsOtherText).links =
      (parse_lesson_details cellAnchors).links := by
  refine ⟨?_, ?_, ?_⟩
  · exact ((claim_C7 cellAnchors).1 (by decide)).2.1
  · exact (((claim_C7 cellAnchors).1 (by decide)).2.2
      ("https://a.example")).mpr (by decide)
  · exact (claim_C7 cellAnchors).2.2 cellAnchorsOtherText (by decide)

/-- Claim C8: the Subject Indexer returns the deduplicated list of the
normalized subject values of the page, sorted in code-point order, with
membership exactly the normalizations of the collected subject values;
a page whose subjects are the same name with a lecture and a practical
annotation yields the single normalized entry. -/
theorem claim_C8 (page : Page) :
    (parse_unique_subjects page).Pairwise (fun a b => strLeb a b = true) ∧
    (parse_unique_subjects page).Nodup ∧
    (∀ s, s ∈ parse_unique_subjects page ↔
      ∃ t ∈ collectSubjects page, stripTypeAnnotation t = s) ∧
    parse_unique_subjects examplePage = [("Економіка")] := by
  refine ⟨sortDedup_pairwise _, sortDedup_nodup _, ?_, ?_⟩
  · intro s
    unfold parse_unique_subjects
    rw [mem_sortDedup, List.mem_map]
  · decide

/-- Claim C9: the classifier is total — the embedding is structurally
recursive, and the one fallible operation it performs (the subscript
access of the href attribute) is guarded by the find_all filter, so the
checked classifier always returns a record and never an exception. -/
theorem claim_C9 (ns : List Node) :
    parse_lesson_detailsChecked ns = Except.ok (parse_lesson_details ns) := by
  unfold parse_lesson_detailsChecked parse_lesson_details
  rw [collectHrefs_ok]
  rfl

/-- Claim C10, counterexample.  The claim says the last line matching
the subgroup pattern determines the stored value.  A later
subgroup-marked line that also matches the teacher pattern never
reaches the subgroup check, so the value stays that of the earlier
line. -/
theorem claim_C10_counterexample :
    subgroupSearch ("викладач Іванов підгр. 2") = some ("підгр. 2") ∧
    (parse_lesson_details cellSubgroupTeacher).subgroup =
      some ("підгр. 1") := by
  decide

/-- Claim C10, amended.  Among the lines that match neither the
subject+type pattern nor the teacher pattern, the last one matching the
subgroup pattern determines the record's subgroup, and the stored value
is the full stripped matched marker text (keyword, whitespace, digit),
not only the digit — as the concrete two-marker block shows. -/
theorem claim_C10_amended (ns : List Node) :
    (parse_lesson_details ns).subgroup =
      ((linesOf ns).filterMap subgroupExtract).getLast? ∧
    (parse_lesson_details cellSubgroupTwice).subgroup =
      some ("підгр. 2") := by
  constructor
  · rw [parse_lesson_details_subgroup, lastOr_eq_getLast?]
    rcases ((linesOf ns).filterMap subgroupExtract).getLast? with _ | v
    · rfl
    · rfl
  · decide

end NUNG
